import Mathlib

/-!
Verification of the co-training orchestration loop
(`Configuration/implementation/recommenders/cotraining.py`) and the
per-recommender pseudo-labeling policies
(`Configuration/implementation/recommenders/mf.py`) of the
recsys-cotraining repository.

Modeling conventions:
* machine floats are modeled by `ℚ` (the labeling logic only compares,
  clamps and copies scores; no float rounding is decision-relevant),
* a scipy `dok_matrix` is modeled as a Python dict, i.e. an
  insertion-ordered association list, because the code accesses it only
  through `get(key, default)`, raw `dict.update`, `.keys()` and `.copy()`
  (`dict.update` stores the given value even when it is zero, and never
  removes a key),
* the unbounded rejection-sampling `while` loops are modeled as functions
  consuming a finite stream of random draws, returning `none` when the
  stream is exhausted before the loop condition is satisfied (a run that
  has not yet terminated),
* the fitted models' score computations (`np.dot(U[u], V.T)` etc.) are
  external numerics and enter the labelers as a score oracle
  `score : Pair → ℚ`; the per-user caching in `score_mode='user'`
  recomputes the score row whenever the user changes, so pointwise it
  always yields `score (user, item)`.
-/

namespace RecSysCoTraining

/-- A (user, item) index pair. -/
abbrev Pair := Nat × Nat

/-- A pseudo-label triplet `(user, item, rating)`. -/
abbrev Triplet := Nat × Nat × ℚ

/-- Lookup in a Python-dict association list. -/
def lookupA {α : Type} (p : Pair) : List (Pair × α) → Option α
  | [] => none
  | (q, w) :: rest => if q = p then some w else lookupA p rest

/-- Raw `dict.update` on an association list: replace the value in place
when the key is present (keeping its position), else append the new key.
The value is stored even when it is zero. -/
def updateA {α : Type} (p : Pair) (v : α) : List (Pair × α) → List (Pair × α)
  | [] => [(p, v)]
  | (q, w) :: rest => if q = p then (p, v) :: rest else (q, w) :: updateA p v rest

/-- Model of a scipy `dok_matrix` as used by `cotraining.py`: a Python
dict from (user, item) keys to values. -/
structure Dok (α : Type) where
  entries : List (Pair × α)
deriving DecidableEq

/-- `d.get(p, dflt)`. -/
def Dok.get {α : Type} (d : Dok α) (p : Pair) (dflt : α) : α :=
  (lookupA p d.entries).getD dflt

/-- `d.update({p: v})` (raw `dict.update`, bypassing dok zero-dropping). -/
def Dok.update {α : Type} (d : Dok α) (p : Pair) (v : α) : Dok α :=
  ⟨updateA p v d.entries⟩

/-- `list(d.keys())`: every stored key, in insertion order, whatever its
value. -/
def Dok.keys {α : Type} (d : Dok α) : List Pair :=
  d.entries.map Prod.fst

/-- The number of nonzero entries of a rating matrix (an explicitly
stored zero does not count as an observed rating). -/
def nnz (d : Dok ℚ) : Nat :=
  (d.entries.filter (fun e => decide (e.2 ≠ 0))).length

/-- One rejection-sampling loop (`cotraining.py` lines 88-95 and
160-167): run through the stream of random draws, accepting a draw `d`
(storing pool flag 1 for it and decrementing the remaining count) iff
`test d`; reject otherwise.  Returns `none` when the stream is exhausted
before `need` draws were accepted, i.e. the loop has not terminated on
the supplied stream. -/
def fillPool (test : Pair → Bool) : Dok Int → Nat → List Pair → Option (Dok Int)
  | u, 0, _ => some u
  | _, _ + 1, [] => none
  | u, n + 1, d :: rest =>
    if test d then fillPool test (u.update d 1) n rest else fillPool test u (n + 1) rest

/-- The pool-seeding loop (`cotraining.py` lines 88-95): starting from an
empty dict, accept a draw iff it is absent (zero) in `X1`. -/
def seedPool (X1 : Dok ℚ) (target : Nat) (draws : List Pair) : Option (Dok Int) :=
  fillPool (fun p => decide (X1.get p 0 = 0)) ⟨[]⟩ target draws

/-- The (user, item) key of a label triplet. -/
def pairOf (t : Triplet) : Pair :=
  (t.1, t.2.1)

/-- One label-application loop (`cotraining.py` lines 150-153 and
155-158): for each triplet, write its rating into the target matrix and
set the pair's pool flag to 0 (consume it). -/
def applyLabeled (labeled : List Triplet) (X : Dok ℚ) (u : Dok Int) : Dok ℚ × Dok Int :=
  labeled.foldl (fun s t => (s.1.update (pairOf t) t.2.2, s.2.update (pairOf t) 0)) (X, u)

/-- The mutable state of a co-training run: the two training matrices and
the pool dict `u_prime`. -/
structure CtState where
  X1 : Dok ℚ
  X2 : Dok ℚ
  pool : Dok Int
deriving DecidableEq

/-- Per-round external inputs: the triplet lists returned by the two
recommenders' labelers, and the stream of random draws consumed by the
replenishment loop. -/
structure RoundInput where
  labeled1 : List Triplet
  labeled2 : List Triplet
  draws : List Pair
deriving DecidableEq

/-- The candidate list offered to both labelers each round
(`cotraining.py` line 138): `list(u_prime.keys())` - every stored key of
the pool dict, whatever its flag value. -/
def candidates (s : CtState) : List Pair :=
  s.pool.keys

/-- The mutation phase of one co-training round (`cotraining.py` lines
150-167): apply recommender 1's labels to `X2` and recommender 2's labels
to `X1`, setting the pool flag of every labeled pair to 0, then replenish
the pool with `len(labeled1) + len(labeled2)` accepted draws, a draw
being accepted iff it is zero in both (already updated) matrices. -/
def roundStep (inp : RoundInput) (s : CtState) : Option CtState :=
  let a1 := applyLabeled inp.labeled1 s.X2 s.pool
  let a2 := applyLabeled inp.labeled2 s.X1 a1.2
  (fillPool (fun p => decide (a2.1.get p 0 = 0) && decide (a1.1.get p 0 = 0))
      a2.2 (inp.labeled1.length + inp.labeled2.length) inp.draws).map
    (fun u2 => ⟨a2.1, a1.1, u2⟩)

/-- Iterate `roundStep` over the per-round inputs. -/
def runRounds : CtState → List RoundInput → Option CtState
  | s, [] => some s
  | s, inp :: rest =>
    match roundStep inp s with
    | none => none
    | some s2 => runRounds s2 rest

/-- The initial state of `CoTraining.fit` (lines 86-98): seed the pool by
rejection sampling against `X1` alone, then let `X2 := X1.copy()`. -/
def initState (X1 : Dok ℚ) (target : Nat) (draws : List Pair) : Option CtState :=
  (seedPool X1 target draws).map (fun u => ⟨X1, X1, u⟩)

/-- Pool soundness: every pair whose pool flag is nonzero is absent
(zero) from both training matrices. -/
def PoolInv (s : CtState) : Prop :=
  ∀ p : Pair, s.pool.get p 0 ≠ 0 → s.X1.get p 0 = 0 ∧ s.X2.get p 0 = 0

/-- Outcome of each fallible step of one round of `CoTraining.fit` (lines
104-148); `Except.error` models the step raising an exception. -/
structure RoundSteps where
  fit1 : Except Unit Unit
  fit2 : Except Unit Unit
  evalStep : Except Unit Unit
  label1 : Except Unit (List Triplet)
  label2 : Except Unit (List Triplet)

/-- Control-flow skeleton of one round of `CoTraining.fit` (lines
104-158).  `rec_1.fit` (lines 104-111) and the evaluation (lines 125-133)
are wrapped in try/except, so their failures are swallowed.  The
try/except around `rec_2.fit` is commented out (lines 113-120), so a
failure there propagates out of the whole run.  Each `label` call (lines
141-148) is wrapped in try/except; on failure the local variable
`labeledk` keeps the previous round's value (`none` in the first round,
in which case the application loop at line 151/156 raises an uncaught
NameError).  Returns the pair of label lists the round goes on to apply,
or the uncaught exception. -/
def runRoundSteps (st : RoundSteps) (prev1 prev2 : Option (List Triplet)) :
    Except String (List Triplet × List Triplet) :=
  match st.fit2 with
  | .error _ => .error "rec 2 fit raised: not caught"
  | .ok _ =>
    let l1 := match st.label1 with
      | .ok l => some l
      | .error _ => prev1
    let l2 := match st.label2 with
      | .ok l => some l
      | .error _ => prev2
    match l1, l2 with
    | some a, some b => .ok (a, b)
    | _, _ => .error "NameError: label list never bound"

/-- Ordering of `(index, score)` entries by score, ties by index: the
order in which `np.argsort` (modeled as a stable sort) lists the score
array. -/
def scoreIdxLe (a b : Nat × ℚ) : Prop :=
  a.2 < b.2 ∨ (a.2 = b.2 ∧ a.1 ≤ b.1)

instance : DecidableRel scoreIdxLe := fun a b => by
  unfold scoreIdxLe; infer_instance

instance : IsTotal (Nat × ℚ) scoreIdxLe :=
  ⟨by
    intro a b
    rcases lt_trichotomy a.2 b.2 with h | h | h
    · exact Or.inl (Or.inl h)
    · rcases Nat.le_total a.1 b.1 with h1 | h1
      · exact Or.inl (Or.inr ⟨h, h1⟩)
      · exact Or.inr (Or.inr ⟨h.symm, h1⟩)
    · exact Or.inr (Or.inl h)⟩

instance : IsTrans (Nat × ℚ) scoreIdxLe :=
  ⟨by
    intro a b c hab hbc
    rcases hab with h1 | ⟨e1, l1⟩
    · rcases hbc with h2 | ⟨e2, _⟩
      · exact Or.inl (h1.trans h2)
      · exact Or.inl (e2 ▸ h1)
    · rcases hbc with h2 | ⟨e2, l2⟩
      · exact Or.inl (e1 ▸ h2)
      · exact Or.inr ⟨e1.trans e2, l1.trans l2⟩⟩

/-- Ordering of triplets by `(user, item)`, the key used by the final
`sorted(scores, key=lambda t: (t[0], t[1]))`. -/
def uiLe (a b : Triplet) : Prop :=
  a.1 < b.1 ∨ (a.1 = b.1 ∧ a.2.1 ≤ b.2.1)

instance : DecidableRel uiLe := fun a b => by
  unfold uiLe; infer_instance

instance : IsTotal Triplet uiLe :=
  ⟨by
    intro a b
    rcases Nat.lt_trichotomy a.1 b.1 with h | h | h
    · exact Or.inl (Or.inl h)
    · rcases Nat.le_total a.2.1 b.2.1 with h1 | h1
      · exact Or.inl (Or.inr ⟨h, h1⟩)
      · exact Or.inr (Or.inr ⟨h.symm, h1⟩)
    · exact Or.inr (Or.inl h)⟩

instance : IsTrans Triplet uiLe :=
  ⟨by
    intro a b c hab hbc
    rcases hab with h1 | ⟨e1, l1⟩
    · rcases hbc with h2 | ⟨e2, _⟩
      · exact Or.inl (h1.trans h2)
      · exact Or.inl (e2 ▸ h1)
    · rcases hbc with h2 | ⟨e2, l2⟩
      · exact Or.inl (e1 ▸ h2)
      · exact Or.inr ⟨e1.trans e2, l1.trans l2⟩⟩

/-- `np.argsort` of a score list, ascending (modeled as a stable sort,
ties listed by position): the indices of `xs` ordered by value. -/
def argsortAsc (xs : List ℚ) : List Nat :=
  (List.insertionSort scoreIdxLe xs.enum).map Prod.fst

/-- The statistics dictionary built by the labelers (`meta` in
`mf.py`). -/
structure LabelMeta where
  posLabels : Nat
  negLabels : Nat
  totalLabels : Nat
  posSet : List Pair
  negSet : List Pair
  neutralSet : List Pair
deriving DecidableEq

/-- `FunkSVD.label` (`mf.py` lines 191-278) in explicit-rating mode
(`binary_ratings=False`, the mode `CoTraining.fit` always uses).
`cands` is the list of (user, item) pairs to be scored and `score` the
fitted model's predicted rating for a pair.  Classification: positive iff
score ≥ 3.5, negative iff score ≤ 2.5, neutral strictly in between.
Positives are ranked by score descending and truncated to `pMost`,
negatives ascending and truncated to `nMost` (both via `argsort` on the
filtered score arrays, indexing back into them).  Emitted ratings are
clamped to at most 5 (positives) and at least 1 (negatives); the final
triplet list is sorted by (user, item).  The metadata records the
truncated label counts and the pre-truncation classification sets. -/
def funkSVDLabel (cands : List Pair) (score : Pair → ℚ) (pMost nMost : Nat) :
    List Triplet × LabelMeta :=
  let scored := cands.map (fun c => (c, score c))
  let pos := scored.filter (fun x => decide (mkRat 7 2 ≤ x.2))
  let neg := scored.filter (fun x => decide (x.2 ≤ mkRat 5 2))
  let neutral := scored.filter (fun x => decide (mkRat 5 2 < x.2) && decide (x.2 < mkRat 7 2))
  let pSel := ((argsortAsc (pos.map Prod.snd)).reverse.take pMost).map
    (fun i => pos.getD i ((0, 0), 0))
  let nSel := ((argsortAsc (neg.map Prod.snd)).take nMost).map
    (fun i => neg.getD i ((0, 0), 0))
  let trips := pSel.map (fun x => (x.1.1, x.1.2, if x.2 < 5 then x.2 else 5)) ++
    nSel.map (fun x => (x.1.1, x.1.2, if 1 < x.2 then x.2 else 1))
  (List.insertionSort uiLe trips,
    ⟨pSel.length, nSel.length, pSel.length + nSel.length,
      pos.map Prod.fst, neg.map Prod.fst, neutral.map Prod.fst⟩)

/-- `AsySVD.label` (`mf.py` lines 361-411) in explicit-rating mode:
positive iff 4 ≤ score ≤ 5, negative iff 1 ≤ score ≤ 3, everything else
dropped; the emitted rating is the raw score (no clamping); no metadata
is returned. -/
def asySVDLabel (cands : List Pair) (score : Pair → ℚ) (pMost nMost : Nat) :
    List Triplet :=
  let scored := cands.map (fun c => (c, score c))
  let pos := scored.filter (fun x => decide ((4 : ℚ) ≤ x.2) && decide (x.2 ≤ (5 : ℚ)))
  let neg := scored.filter (fun x => decide ((1 : ℚ) ≤ x.2) && decide (x.2 ≤ (3 : ℚ)))
  let pSel := ((argsortAsc (pos.map Prod.snd)).reverse.take pMost).map
    (fun i => pos.getD i ((0, 0), 0))
  let nSel := ((argsortAsc (neg.map Prod.snd)).take nMost).map
    (fun i => neg.getD i ((0, 0), 0))
  let trips := pSel.map (fun x => (x.1.1, x.1.2, x.2)) ++
    nSel.map (fun x => (x.1.1, x.1.2, x.2))
  List.insertionSort uiLe trips

/-- `BPRMF.label` (`mf.py` lines 680-736): no thresholds at all; the
scores of all candidates are argsorted ascending, the positives are the
slice `[-p_most:]` of that order and the negatives the slice
`[:n_most]`.  The Python slice `a[-k:]` is the last `k` elements for
`k ≥ 1` but the whole array for `k = 0`.  Emitted ratings are constants:
positives 1.0 / negatives 0.0 in binary mode, positives 5.0 / negatives
1.0 in explicit mode - never the predicted score.  The final triplet
list is sorted by (user, item); the metadata sets here hold the
post-truncation selections and the neutral set is always empty. -/
def bprmfLabel (cands : List Pair) (score : Pair → ℚ) (binary : Bool)
    (pMost nMost : Nat) : List Triplet × LabelMeta :=
  let scores := cands.map score
  let sortedIdx := argsortAsc scores
  let pIdx := if pMost = 0 then sortedIdx else sortedIdx.drop (sortedIdx.length - pMost)
  let nIdx := sortedIdx.take nMost
  let pConst : ℚ := if binary then 1 else 5
  let nConst : ℚ := if binary then 0 else 1
  let pPairs := pIdx.map (fun i => cands.getD i (0, 0))
  let nPairs := nIdx.map (fun i => cands.getD i (0, 0))
  let trips := pPairs.map (fun c => (c.1, c.2, pConst)) ++
    nPairs.map (fun c => (c.1, c.2, nConst))
  (List.insertionSort uiLe trips,
    ⟨pIdx.length, nIdx.length, pIdx.length + nIdx.length, pPairs, nPairs, []⟩)

end RecSysCoTraining

namespace RecSysCoTraining

/-! ### Association-list (Python dict) lemmas -/

theorem lookupA_updateA_self {α : Type} (p : Pair) (v : α) (l : List (Pair × α)) :
    lookupA p (updateA p v l) = some v := by
  induction l with
  | nil => simp [updateA, lookupA]
  | cons e rest ih =>
    obtain ⟨q, w⟩ := e
    by_cases h : q = p
    · simp [updateA, h, lookupA]
    · simp [updateA, h, lookupA, ih]

theorem lookupA_updateA_ne {α : Type} {q p : Pair} (h : q ≠ p) (v : α)
    (l : List (Pair × α)) : lookupA q (updateA p v l) = lookupA q l := by
  induction l with
  | nil => simp [updateA, lookupA, Ne.symm h]
  | cons e rest ih =>
    obtain ⟨a, w⟩ := e
    by_cases ha : a = p
    · subst ha
      simp [updateA, lookupA, Ne.symm h]
    · simp [updateA, ha, lookupA, ih]

theorem Dok.get_update_self {α : Type} (d : Dok α) (p : Pair) (v dflt : α) :
    (d.update p v).get p dflt = v := by
  simp [Dok.get, Dok.update, lookupA_updateA_self]

theorem Dok.get_update_ne {α : Type} (d : Dok α) {q p : Pair} (h : q ≠ p) (v dflt : α) :
    (d.update p v).get q dflt = d.get q dflt := by
  simp [Dok.get, Dok.update, lookupA_updateA_ne h]

theorem mem_map_fst_updateA {α : Type} (p q : Pair) (v : α) (l : List (Pair × α)) :
    q ∈ (updateA p v l).map Prod.fst ↔ q ∈ l.map Prod.fst ∨ q = p := by
  induction l with
  | nil => simp [updateA, eq_comm]
  | cons e rest ih =>
    obtain ⟨a, w⟩ := e
    by_cases ha : a = p
    · subst ha
      simp [updateA, or_assoc, eq_comm, or_comm]
    · simp only [updateA, if_neg ha, List.map_cons, List.mem_cons, ih, or_assoc]

theorem Dok.mem_keys_update {α : Type} (d : Dok α) (p q : Pair) (v : α) :
    q ∈ (d.update p v).keys ↔ q ∈ d.keys ∨ q = p := by
  obtain ⟨l⟩ := d
  exact mem_map_fst_updateA p q v l

theorem filter_nz_updateA (p : Pair) {v : ℚ} (hv : v ≠ 0) (l : List (Pair × ℚ)) :
    (l.filter (fun e => decide (e.2 ≠ 0))).length ≤
      ((updateA p v l).filter (fun e => decide (e.2 ≠ 0))).length := by
  induction l with
  | nil => simp [updateA, hv]
  | cons e rest ih =>
    obtain ⟨a, w⟩ := e
    by_cases ha : a = p
    · subst ha
      rw [updateA, if_pos rfl, List.filter_cons, List.filter_cons]
      by_cases hw : w = 0
      · rw [if_neg (by simp [hw]), if_pos (by simp [hv]), List.length_cons]
        exact Nat.le_succ _
      · rw [if_pos (by simp [hw]), if_pos (by simp [hv]), List.length_cons, List.length_cons]
    · rw [updateA, if_neg ha, List.filter_cons, List.filter_cons]
      by_cases hw : w = 0
      · rw [if_neg (by simp [hw]), if_neg (by simp [hw])]
        exact ih
      · rw [if_pos (by simp [hw]), if_pos (by simp [hw]), List.length_cons, List.length_cons]
        exact Nat.succ_le_succ ih

theorem nnz_update {d : Dok ℚ} (p : Pair) {v : ℚ} (hv : v ≠ 0) :
    nnz d ≤ nnz (d.update p v) := by
  obtain ⟨l⟩ := d
  exact filter_nz_updateA p hv l

theorem get_update_nz {d : Dok ℚ} {p q : Pair} {v : ℚ} (hv : v ≠ 0)
    (h : d.get q 0 ≠ 0) : (d.update p v).get q 0 ≠ 0 := by
  by_cases hq : q = p
  · subst hq
    rw [Dok.get_update_self]
    exact hv
  · rw [Dok.get_update_ne d hq]
    exact h

/-! ### Rejection-sampling loop lemmas -/

theorem foldl_update_get_not_mem (l : List Pair) (u : Dok Int) {p : Pair} (h : p ∉ l) :
    (l.foldl (fun d q => d.update q 1) u).get p 0 = u.get p 0 := by
  induction l generalizing u with
  | nil => rfl
  | cons d rest ih =>
    have hne : p ≠ d := fun e => h (by rw [e]; exact List.mem_cons_self d rest)
    rw [List.foldl_cons, ih _ (fun hm => h (List.mem_cons_of_mem d hm)),
      Dok.get_update_ne u hne]

theorem foldl_update_get_mem (l : List Pair) (u : Dok Int) {p : Pair} (h : p ∈ l) :
    (l.foldl (fun d q => d.update q 1) u).get p 0 = 1 := by
  induction l generalizing u with
  | nil => cases h
  | cons d rest ih =>
    rw [List.foldl_cons]
    by_cases hm : p ∈ rest
    · exact ih _ hm
    · have hp : p = d := by
        rcases List.mem_cons.1 h with he | he
        · exact he
        · exact absurd he hm
      subst hp
      rw [foldl_update_get_not_mem rest _ hm, Dok.get_update_self]

theorem foldl_update_keys_mono (l : List Pair) (u : Dok Int) {p : Pair} (h : p ∈ u.keys) :
    p ∈ (l.foldl (fun d q => d.update q 1) u).keys := by
  induction l generalizing u with
  | nil => exact h
  | cons d rest ih =>
    rw [List.foldl_cons]
    exact ih _ ((Dok.mem_keys_update u d p 1).2 (Or.inl h))

theorem fillPool_eq_some (test : Pair → Bool) (draws : List Pair) :
    ∀ (n : Nat) (u : Dok Int), n ≤ (draws.filter test).length →
      fillPool test u n draws =
        some (((draws.filter test).take n).foldl (fun d q => d.update q 1) u) := by
  induction draws with
  | nil =>
    intro n u h
    simp only [List.filter_nil, List.length_nil, Nat.le_zero] at h
    subst h
    rfl
  | cons d rest ih =>
    intro n u h
    cases n with
    | zero => rfl
    | succ m =>
      by_cases ht : test d
      · rw [List.filter_cons_of_pos ht] at h ⊢
        rw [List.length_cons] at h
        simp only [fillPool, ht, if_true, List.take_succ_cons, List.foldl_cons]
        exact ih m (u.update d 1) (Nat.le_of_succ_le_succ h)
      · rw [List.filter_cons_of_neg ht] at h ⊢
        simp only [fillPool, ht, if_false]
        exact ih (m + 1) u h

theorem fillPool_eq_none (test : Pair → Bool) (draws : List Pair) :
    ∀ (n : Nat) (u : Dok Int), (draws.filter test).length < n →
      fillPool test u n draws = none := by
  induction draws with
  | nil =>
    intro n u h
    simp only [List.filter_nil, List.length_nil] at h
    cases n with
    | zero => cases h
    | succ m => rfl
  | cons d rest ih =>
    intro n u h
    cases n with
    | zero => cases h
    | succ m =>
      by_cases ht : test d
      · rw [List.filter_cons_of_pos ht, List.length_cons] at h
        simp only [fillPool, ht, if_true]
        exact ih m (u.update d 1) (Nat.lt_of_succ_lt_succ h)
      · rw [List.filter_cons_of_neg ht] at h
        simp only [fillPool, ht, if_false]
        exact ih (m + 1) u h

theorem fillPool_some_le {test : Pair → Bool} {draws : List Pair} {n : Nat}
    {u u2 : Dok Int} (h : fillPool test u n draws = some u2) :
    n ≤ (draws.filter test).length := by
  by_contra hlt
  rw [fillPool_eq_none test draws n u (Nat.lt_of_not_le hlt)] at h
  cases h

theorem fillPool_some_eq {test : Pair → Bool} {draws : List Pair} {n : Nat}
    {u u2 : Dok Int} (h : fillPool test u n draws = some u2) :
    u2 = ((draws.filter test).take n).foldl (fun d q => d.update q 1) u := by
  rw [fillPool_eq_some test draws n u (fillPool_some_le h)] at h
  exact (Option.some_inj.1 h).symm

theorem fillPool_flag {test : Pair → Bool} {draws : List Pair} {n : Nat}
    {u u2 : Dok Int} (h : fillPool test u n draws = some u2) {p : Pair}
    (hp : u2.get p 0 ≠ 0) : u.get p 0 ≠ 0 ∨ test p = true := by
  rw [fillPool_some_eq h] at hp
  by_cases hm : p ∈ (draws.filter test).take n
  · exact Or.inr (List.mem_filter.1 (List.mem_of_mem_take hm)).2
  · rw [foldl_update_get_not_mem _ _ hm] at hp
    exact Or.inl hp

theorem fillPool_keys_mono {test : Pair → Bool} {draws : List Pair} {n : Nat}
    {u u2 : Dok Int} (h : fillPool test u n draws = some u2) {p : Pair}
    (hp : p ∈ u.keys) : p ∈ u2.keys := by
  rw [fillPool_some_eq h]
  exact foldl_update_keys_mono _ _ hp

/-! ### Label-application loop lemmas -/

theorem applyLabeled_cons (t : Triplet) (l : List Triplet) (X : Dok ℚ) (u : Dok Int) :
    applyLabeled (t :: l) X u =
      applyLabeled l (X.update (pairOf t) t.2.2) (u.update (pairOf t) 0) :=
  rfl

theorem applyLabeled_get_not_mem (l : List Triplet) (X : Dok ℚ) (u : Dok Int) {p : Pair}
    (h : ∀ t ∈ l, pairOf t ≠ p) :
    (applyLabeled l X u).1.get p 0 = X.get p 0 ∧
      (applyLabeled l X u).2.get p 0 = u.get p 0 := by
  induction l generalizing X u with
  | nil => exact ⟨rfl, rfl⟩
  | cons t rest ih =>
    have hne : p ≠ pairOf t := Ne.symm (h t (List.mem_cons_self t rest))
    obtain ⟨h1, h2⟩ := ih (X.update (pairOf t) t.2.2) (u.update (pairOf t) 0)
      (fun t2 ht2 => h t2 (List.mem_cons_of_mem t ht2))
    rw [applyLabeled_cons]
    exact ⟨h1.trans (Dok.get_update_ne X hne _ _), h2.trans (Dok.get_update_ne u hne _ _)⟩

theorem applyLabeled_pool_zero (l : List Triplet) (X : Dok ℚ) (u : Dok Int) {p : Pair}
    (h : ∃ t ∈ l, pairOf t = p) : (applyLabeled l X u).2.get p 0 = 0 := by
  induction l generalizing X u with
  | nil =>
    obtain ⟨t, ht, _⟩ := h
    cases ht
  | cons t rest ih =>
    rw [applyLabeled_cons]
    by_cases hm : ∃ t2 ∈ rest, pairOf t2 = p
    · exact ih _ _ hm
    · obtain ⟨t2, ht2, hpt⟩ := h
      rcases List.mem_cons.1 ht2 with rfl | hmem
      · have hnm : ∀ s ∈ rest, pairOf s ≠ p := fun s hs he => hm ⟨s, hs, he⟩
        rw [(applyLabeled_get_not_mem rest _ _ hnm).2, hpt, Dok.get_update_self]
      · exact absurd ⟨t2, hmem, hpt⟩ hm

theorem applyLabeled_mat_keys_mono (l : List Triplet) (X : Dok ℚ) (u : Dok Int) {p : Pair}
    (h : p ∈ X.keys) : p ∈ (applyLabeled l X u).1.keys := by
  induction l generalizing X u with
  | nil => exact h
  | cons t rest ih =>
    rw [applyLabeled_cons]
    exact ih _ _ ((Dok.mem_keys_update X (pairOf t) p t.2.2).2 (Or.inl h))

theorem applyLabeled_pool_keys_mono (l : List Triplet) (X : Dok ℚ) (u : Dok Int) {p : Pair}
    (h : p ∈ u.keys) : p ∈ (applyLabeled l X u).2.keys := by
  induction l generalizing X u with
  | nil => exact h
  | cons t rest ih =>
    rw [applyLabeled_cons]
    exact ih _ _ ((Dok.mem_keys_update u (pairOf t) p 0).2 (Or.inl h))

theorem applyLabeled_mat_keys_of_mem (l : List Triplet) (X : Dok ℚ) (u : Dok Int) {p : Pair}
    (h : ∃ t ∈ l, pairOf t = p) : p ∈ (applyLabeled l X u).1.keys := by
  induction l generalizing X u with
  | nil =>
    obtain ⟨t, ht, _⟩ := h
    cases ht
  | cons t rest ih =>
    rw [applyLabeled_cons]
    by_cases hm : ∃ t2 ∈ rest, pairOf t2 = p
    · exact ih _ _ hm
    · obtain ⟨t2, ht2, hpt⟩ := h
      rcases List.mem_cons.1 ht2 with rfl | hmem
      · exact applyLabeled_mat_keys_mono rest _ _
          ((Dok.mem_keys_update X (pairOf t2) p t2.2.2).2 (Or.inr hpt.symm))
      · exact absurd ⟨t2, hmem, hpt⟩ hm

theorem applyLabeled_mat_val (l : List Triplet) (X : Dok ℚ) (u : Dok Int) {p : Pair}
    (h : ∃ t ∈ l, pairOf t = p) :
    ∃ t ∈ l, pairOf t = p ∧ (applyLabeled l X u).1.get p 0 = t.2.2 := by
  induction l generalizing X u with
  | nil =>
    obtain ⟨t, ht, _⟩ := h
    cases ht
  | cons t rest ih =>
    rw [applyLabeled_cons]
    by_cases hm : ∃ t2 ∈ rest, pairOf t2 = p
    · obtain ⟨t2, ht2, hp2, hv2⟩ := ih (X.update (pairOf t) t.2.2) (u.update (pairOf t) 0) hm
      exact ⟨t2, List.mem_cons_of_mem t ht2, hp2, hv2⟩
    · obtain ⟨t2, ht2, hpt⟩ := h
      rcases List.mem_cons.1 ht2 with rfl | hmem
      · have hnm : ∀ s ∈ rest, pairOf s ≠ p := fun s hs he => hm ⟨s, hs, he⟩
        refine ⟨t2, List.mem_cons_self t2 rest, hpt, ?_⟩
        rw [(applyLabeled_get_not_mem rest _ _ hnm).1, hpt, Dok.get_update_self]
      · exact absurd ⟨t2, hmem, hpt⟩ hm

theorem applyLabeled_nnz (l : List Triplet) (X : Dok ℚ) (u : Dok Int)
    (h : ∀ t ∈ l, t.2.2 ≠ 0) : nnz X ≤ nnz (applyLabeled l X u).1 := by
  induction l generalizing X u with
  | nil => exact Nat.le_refl _
  | cons t rest ih =>
    rw [applyLabeled_cons]
    exact Nat.le_trans (nnz_update (pairOf t) (h t (List.mem_cons_self t rest)))
      (ih _ _ (fun t2 ht2 => h t2 (List.mem_cons_of_mem t ht2)))

theorem applyLabeled_get_nz (l : List Triplet) (X : Dok ℚ) (u : Dok Int) {p : Pair}
    (h : ∀ t ∈ l, t.2.2 ≠ 0) (hp : X.get p 0 ≠ 0) :
    (applyLabeled l X u).1.get p 0 ≠ 0 := by
  induction l generalizing X u with
  | nil => exact hp
  | cons t rest ih =>
    rw [applyLabeled_cons]
    exact ih _ _ (fun t2 ht2 => h t2 (List.mem_cons_of_mem t ht2))
      (get_update_nz (h t (List.mem_cons_self t rest)) hp)

/-! ### Round-level lemmas -/

theorem roundStep_some {inp : RoundInput} {s s2 : CtState}
    (h : roundStep inp s = some s2) :
    ∃ u2, fillPool
        (fun p => decide ((applyLabeled inp.labeled2 s.X1
            (applyLabeled inp.labeled1 s.X2 s.pool).2).1.get p 0 = 0) &&
          decide ((applyLabeled inp.labeled1 s.X2 s.pool).1.get p 0 = 0))
        (applyLabeled inp.labeled2 s.X1 (applyLabeled inp.labeled1 s.X2 s.pool).2).2
        (inp.labeled1.length + inp.labeled2.length) inp.draws = some u2 ∧
      s2 = ⟨(applyLabeled inp.labeled2 s.X1 (applyLabeled inp.labeled1 s.X2 s.pool).2).1,
        (applyLabeled inp.labeled1 s.X2 s.pool).1, u2⟩ := by
  unfold roundStep at h
  obtain ⟨u2, hu2, hs2⟩ := Option.map_eq_some'.1 h
  exact ⟨u2, hu2, hs2.symm⟩

theorem roundStep_poolInv {inp : RoundInput} {s s2 : CtState} (hInv : PoolInv s)
    (h : roundStep inp s = some s2) : PoolInv s2 := by
  obtain ⟨u2, hu2, rfl⟩ := roundStep_some h
  intro p hp
  rcases fillPool_flag hu2 hp with hold | htest
  · by_cases hl2 : ∃ t ∈ inp.labeled2, pairOf t = p
    · rw [applyLabeled_pool_zero _ _ _ hl2] at hold
      exact absurd rfl hold
    · have hn2 : ∀ t ∈ inp.labeled2, pairOf t ≠ p := fun t ht he => hl2 ⟨t, ht, he⟩
      obtain ⟨hx1, hpool2⟩ := applyLabeled_get_not_mem inp.labeled2 s.X1
        (applyLabeled inp.labeled1 s.X2 s.pool).2 hn2
      rw [hpool2] at hold
      by_cases hl1 : ∃ t ∈ inp.labeled1, pairOf t = p
      · rw [applyLabeled_pool_zero _ _ _ hl1] at hold
        exact absurd rfl hold
      · have hn1 : ∀ t ∈ inp.labeled1, pairOf t ≠ p := fun t ht he => hl1 ⟨t, ht, he⟩
        obtain ⟨hx2, hpool1⟩ := applyLabeled_get_not_mem inp.labeled1 s.X2 s.pool hn1
        rw [hpool1] at hold
        obtain ⟨h1, h2⟩ := hInv p hold
        exact ⟨hx1.trans h1, hx2.trans h2⟩
  · rw [Bool.and_eq_true, decide_eq_true_eq, decide_eq_true_eq] at htest
    exact htest

theorem runRounds_poolInv {inputs : List RoundInput} {s s2 : CtState} (hInv : PoolInv s)
    (h : runRounds s inputs = some s2) : PoolInv s2 := by
  induction inputs generalizing s with
  | nil =>
    cases h
    exact hInv
  | cons inp rest ih =>
    unfold runRounds at h
    cases hr : roundStep inp s with
    | none => rw [hr] at h; cases h
    | some s3 =>
      rw [hr] at h
      exact ih (roundStep_poolInv hInv hr) h

theorem initState_poolInv {X1 : Dok ℚ} {target : Nat} {draws : List Pair} {s0 : CtState}
    (h : initState X1 target draws = some s0) : PoolInv s0 := by
  unfold initState seedPool at h
  obtain ⟨u0, hu0, hs0⟩ := Option.map_eq_some'.1 h
  subst hs0
  intro p hp
  rcases fillPool_flag hu0 hp with hold | htest
  · exact absurd rfl hold
  · rw [decide_eq_true_eq] at htest
    exact ⟨htest, htest⟩

theorem roundStep_mono {inp : RoundInput} {s s2 : CtState}
    (hv1 : ∀ t ∈ inp.labeled1, t.2.2 ≠ 0) (hv2 : ∀ t ∈ inp.labeled2, t.2.2 ≠ 0)
    (h : roundStep inp s = some s2) :
    nnz s.X1 ≤ nnz s2.X1 ∧ nnz s.X2 ≤ nnz s2.X2 ∧
      (∀ p, s.X1.get p 0 ≠ 0 → s2.X1.get p 0 ≠ 0) ∧
      (∀ p, s.X2.get p 0 ≠ 0 → s2.X2.get p 0 ≠ 0) := by
  obtain ⟨u2, hu2, rfl⟩ := roundStep_some h
  exact ⟨applyLabeled_nnz _ _ _ hv2, applyLabeled_nnz _ _ _ hv1,
    fun p hp => applyLabeled_get_nz _ _ _ hv2 hp,
    fun p hp => applyLabeled_get_nz _ _ _ hv1 hp⟩

theorem runRounds_mono {inputs : List RoundInput} {s s2 : CtState}
    (hv : ∀ inp ∈ inputs, (∀ t ∈ inp.labeled1, t.2.2 ≠ 0) ∧ (∀ t ∈ inp.labeled2, t.2.2 ≠ 0))
    (h : runRounds s inputs = some s2) :
    nnz s.X1 ≤ nnz s2.X1 ∧ nnz s.X2 ≤ nnz s2.X2 ∧
      (∀ p, s.X1.get p 0 ≠ 0 → s2.X1.get p 0 ≠ 0) ∧
      (∀ p, s.X2.get p 0 ≠ 0 → s2.X2.get p 0 ≠ 0) := by
  induction inputs generalizing s with
  | nil =>
    cases h
    exact ⟨Nat.le_refl _, Nat.le_refl _, fun _ hp => hp, fun _ hp => hp⟩
  | cons inp rest ih =>
    unfold runRounds at h
    cases hr : roundStep inp s with
    | none => rw [hr] at h; cases h
    | some s3 =>
      rw [hr] at h
      obtain ⟨m1, m2, g1, g2⟩ := roundStep_mono (hv inp (List.mem_cons_self inp rest)).1
        (hv inp (List.mem_cons_self inp rest)).2 hr
      obtain ⟨n1, n2, f1, f2⟩ := ih (fun i hi => hv i (List.mem_cons_of_mem inp hi)) h
      exact ⟨Nat.le_trans m1 n1, Nat.le_trans m2 n2,
        fun p hp => f1 p (g1 p hp), fun p hp => f2 p (g2 p hp)⟩

theorem roundStep_candidates_mono {inp : RoundInput} {s s2 : CtState}
    (h : roundStep inp s = some s2) {p : Pair} (hp : p ∈ candidates s) :
    p ∈ candidates s2 := by
  obtain ⟨u2, hu2, rfl⟩ := roundStep_some h
  exact fillPool_keys_mono hu2
    (applyLabeled_pool_keys_mono _ _ _ (applyLabeled_pool_keys_mono _ _ _ hp))

/-! ### argsort lemmas -/

theorem argsortAsc_perm (xs : List ℚ) : (argsortAsc xs).Perm (List.range xs.length) := by
  unfold argsortAsc
  have h1 := (List.perm_insertionSort scoreIdxLe xs.enum).map Prod.fst
  rwa [List.enum_map_fst] at h1

theorem argsortAsc_length (xs : List ℚ) : (argsortAsc xs).length = xs.length :=
  (argsortAsc_perm xs).length_eq.trans (List.length_range _)

theorem argsortAsc_mem_lt {xs : List ℚ} {i : Nat} (h : i ∈ argsortAsc xs) :
    i < xs.length :=
  List.mem_range.1 ((argsortAsc_perm xs).mem_iff.1 h)

theorem argsortAsc_mem_of_lt {xs : List ℚ} {i : Nat} (h : i < xs.length) :
    i ∈ argsortAsc xs :=
  (argsortAsc_perm xs).mem_iff.2 (List.mem_range.2 h)

theorem enum_snd_getD {xs : List ℚ} {e : Nat × ℚ} (h : e ∈ xs.enum) :
    xs.getD e.1 0 = e.2 := by
  rw [List.getD_eq_getElem?_getD, List.mem_enum_iff_getElem?.1 h]
  rfl

theorem argsortAsc_pairwise (xs : List ℚ) :
    (argsortAsc xs).Pairwise (fun i j => xs.getD i 0 ≤ xs.getD j 0) := by
  unfold argsortAsc
  rw [List.pairwise_map]
  refine List.Pairwise.imp_of_mem ?_ (List.sorted_insertionSort scoreIdxLe xs.enum)
  intro a b ha hb hr
  rw [enum_snd_getD ((List.mem_insertionSort _).1 ha),
    enum_snd_getD ((List.mem_insertionSort _).1 hb)]
  rcases hr with h | ⟨h, _⟩
  · exact le_of_lt h
  · exact le_of_eq h

theorem getD_mem_of_lt {α : Type} {l : List α} {i : Nat} (h : i < l.length) (d : α) :
    l.getD i d ∈ l := by
  rw [List.getD_eq_getElem?_getD, List.getElem?_eq_getElem h]
  exact List.getElem_mem h

theorem getD_map_score {cands : List Pair} {score : Pair → ℚ} {j : Nat}
    (h : j < cands.length) :
    (cands.map score).getD j 0 = score (cands.getD j (0, 0)) := by
  rw [List.getD_eq_getElem?_getD, List.getD_eq_getElem?_getD,
    List.getElem?_eq_getElem (by simpa using h), List.getElem?_eq_getElem h,
    Option.getD_some, Option.getD_some, List.getElem_map]

theorem scored_filter_fst (cands : List Pair) (score : Pair → ℚ) (q : ℚ → Bool) :
    ((cands.map (fun c => (c, score c))).filter (fun x => q x.2)).map Prod.fst =
      cands.filter (fun c => q (score c)) := by
  rw [List.filter_map, List.map_map]
  exact List.map_id' _

/-! ### Labeler lemmas -/

theorem length_filter_scored (cands : List Pair) (score : Pair → ℚ) (q : ℚ → Bool) :
    ((cands.map (fun c => (c, score c))).filter (fun x => q x.2)).length =
      (cands.filter (fun c => q (score c))).length := by
  have h := congrArg List.length (scored_filter_fst cands score q)
  rwa [List.length_map] at h

theorem funk_posLabels (cands : List Pair) (score : Pair → ℚ) (P N : Nat) :
    (funkSVDLabel cands score P N).2.posLabels =
      min P ((cands.filter (fun c => decide (mkRat 7 2 ≤ score c))).length) := by
  simp only [funkSVDLabel]
  rw [List.length_map, List.length_take, List.length_reverse, argsortAsc_length,
    List.length_map, length_filter_scored cands score (fun b => decide (mkRat 7 2 ≤ b))]

theorem funk_negLabels (cands : List Pair) (score : Pair → ℚ) (P N : Nat) :
    (funkSVDLabel cands score P N).2.negLabels =
      min N ((cands.filter (fun c => decide (score c ≤ mkRat 5 2))).length) := by
  simp only [funkSVDLabel]
  rw [List.length_map, List.length_take, argsortAsc_length,
    List.length_map, length_filter_scored cands score (fun b => decide (b ≤ mkRat 5 2))]

theorem funk_total (cands : List Pair) (score : Pair → ℚ) (P N : Nat) :
    (funkSVDLabel cands score P N).1.length =
      (funkSVDLabel cands score P N).2.posLabels +
        (funkSVDLabel cands score P N).2.negLabels := by
  simp only [funkSVDLabel]
  rw [List.length_insertionSort, List.length_append]
  simp only [List.length_map]

theorem funk_sorted (cands : List Pair) (score : Pair → ℚ) (P N : Nat) :
    (funkSVDLabel cands score P N).1.Sorted uiLe := by
  simp only [funkSVDLabel]
  exact List.sorted_insertionSort uiLe _

theorem funk_posSet_iff (cands : List Pair) (score : Pair → ℚ) (P N : Nat) (c : Pair) :
    c ∈ (funkSVDLabel cands score P N).2.posSet ↔ c ∈ cands ∧ mkRat 7 2 ≤ score c := by
  simp only [funkSVDLabel]
  rw [scored_filter_fst cands score (fun b => decide (mkRat 7 2 ≤ b)), List.mem_filter,
    decide_eq_true_eq]

theorem funk_negSet_iff (cands : List Pair) (score : Pair → ℚ) (P N : Nat) (c : Pair) :
    c ∈ (funkSVDLabel cands score P N).2.negSet ↔ c ∈ cands ∧ score c ≤ mkRat 5 2 := by
  simp only [funkSVDLabel]
  rw [scored_filter_fst cands score (fun b => decide (b ≤ mkRat 5 2)), List.mem_filter,
    decide_eq_true_eq]

theorem funk_neutralSet_iff (cands : List Pair) (score : Pair → ℚ) (P N : Nat) (c : Pair) :
    c ∈ (funkSVDLabel cands score P N).2.neutralSet ↔
      c ∈ cands ∧ mkRat 5 2 < score c ∧ score c < mkRat 7 2 := by
  simp only [funkSVDLabel]
  rw [scored_filter_fst cands score
    (fun b => decide (mkRat 5 2 < b) && decide (b < mkRat 7 2)), List.mem_filter]
  simp only [Bool.and_eq_true, decide_eq_true_eq]

theorem funk_mem_trips {cands : List Pair} {score : Pair → ℚ} {P N : Nat} {t : Triplet}
    (ht : t ∈ (funkSVDLabel cands score P N).1) :
    (mkRat 7 2 ≤ t.2.2 ∧ t.2.2 ≤ 5) ∨ (1 ≤ t.2.2 ∧ t.2.2 ≤ mkRat 5 2) := by
  simp only [funkSVDLabel] at ht
  rw [List.mem_insertionSort] at ht
  rcases List.mem_append.1 ht with hp | hn
  · obtain ⟨x, hx, rfl⟩ := List.mem_map.1 hp
    obtain ⟨i, hi, rfl⟩ := List.mem_map.1 hx
    have hlt : i < ((cands.map (fun c => (c, score c))).filter
        (fun x => decide (mkRat 7 2 ≤ x.2))).length := by
      have h1 := argsortAsc_mem_lt (List.mem_reverse.1 (List.mem_of_mem_take hi))
      rwa [List.length_map] at h1
    have hmem := getD_mem_of_lt hlt ((0, 0), 0)
    have hq := (List.mem_filter.1 hmem).2
    rw [decide_eq_true_eq] at hq
    left
    by_cases h5 : (((cands.map (fun c => (c, score c))).filter
        (fun x => decide (mkRat 7 2 ≤ x.2))).getD i ((0, 0), 0)).2 < 5
    · simp only [if_pos h5]
      exact ⟨hq, le_of_lt h5⟩
    · simp only [if_neg h5]
      exact ⟨by decide, le_refl 5⟩
  · obtain ⟨x, hx, rfl⟩ := List.mem_map.1 hn
    obtain ⟨i, hi, rfl⟩ := List.mem_map.1 hx
    have hlt : i < ((cands.map (fun c => (c, score c))).filter
        (fun x => decide (x.2 ≤ mkRat 5 2))).length := by
      have h1 := argsortAsc_mem_lt (List.mem_of_mem_take hi)
      rwa [List.length_map] at h1
    have hmem := getD_mem_of_lt hlt ((0, 0), 0)
    have hq := (List.mem_filter.1 hmem).2
    rw [decide_eq_true_eq] at hq
    right
    by_cases h1 : (1 : ℚ) < (((cands.map (fun c => (c, score c))).filter
        (fun x => decide (x.2 ≤ mkRat 5 2))).getD i ((0, 0), 0)).2
    · simp only [if_pos h1]
      exact ⟨le_of_lt h1, hq⟩
    · simp only [if_neg h1]
      exact ⟨le_refl 1, by decide⟩

theorem exists_getD_eq {α : Type} {l : List α} {c : α} (h : c ∈ l) (d : α) :
    ∃ j, j < l.length ∧ l.getD j d = c := by
  obtain ⟨n, hn, he⟩ := List.mem_iff_getElem.1 h
  refine ⟨n, hn, ?_⟩
  rw [List.getD_eq_getElem?_getD, List.getElem?_eq_getElem hn]
  exact he

theorem bprmf_posLabels (cands : List Pair) (score : Pair → ℚ) (binary : Bool)
    {P : Nat} (N : Nat) (hP : 1 ≤ P) :
    (bprmfLabel cands score binary P N).2.posLabels = min P cands.length := by
  simp only [bprmfLabel]
  rw [if_neg (by omega : ¬ P = 0), List.length_drop, argsortAsc_length, List.length_map]
  omega

theorem bprmf_negLabels (cands : List Pair) (score : Pair → ℚ) (binary : Bool)
    (P N : Nat) :
    (bprmfLabel cands score binary P N).2.negLabels = min N cands.length := by
  simp only [bprmfLabel]
  rw [List.length_take, argsortAsc_length, List.length_map]

theorem bprmf_total (cands : List Pair) (score : Pair → ℚ) (binary : Bool) (P N : Nat) :
    (bprmfLabel cands score binary P N).1.length =
      (bprmfLabel cands score binary P N).2.posLabels +
        (bprmfLabel cands score binary P N).2.negLabels := by
  simp only [bprmfLabel]
  rw [List.length_insertionSort, List.length_append]
  simp only [List.length_map]

theorem bprmf_sorted (cands : List Pair) (score : Pair → ℚ) (binary : Bool) (P N : Nat) :
    (bprmfLabel cands score binary P N).1.Sorted uiLe := by
  simp only [bprmfLabel]
  exact List.sorted_insertionSort uiLe _

theorem bprmf_values {cands : List Pair} {score : Pair → ℚ} {binary : Bool} {P N : Nat}
    {t : Triplet} (ht : t ∈ (bprmfLabel cands score binary P N).1) :
    t.2.2 = (if binary then (1 : ℚ) else 5) ∨ t.2.2 = (if binary then (0 : ℚ) else 1) := by
  simp only [bprmfLabel] at ht
  rw [List.mem_insertionSort] at ht
  rcases List.mem_append.1 ht with h | h <;> obtain ⟨c, hc, rfl⟩ := List.mem_map.1 h
  · exact Or.inl rfl
  · exact Or.inr rfl

theorem bprmf_posSet_rank (cands : List Pair) (score : Pair → ℚ) (binary : Bool)
    (P N : Nat) :
    ∀ p ∈ (bprmfLabel cands score binary P N).2.posSet,
      ∀ c ∈ cands, c ∉ (bprmfLabel cands score binary P N).2.posSet →
        score c ≤ score p := by
  simp only [bprmfLabel]
  intro p hp c hc hcn
  obtain ⟨j, hj, hje⟩ := exists_getD_eq hc (0, 0)
  have hjs : j ∈ argsortAsc (cands.map score) :=
    argsortAsc_mem_of_lt (by rwa [List.length_map])
  by_cases hP0 : P = 0
  · rw [if_pos hP0] at hcn
    exact absurd (List.mem_map.2 ⟨j, hjs, hje⟩) hcn
  · rw [if_neg hP0] at hp hcn
    obtain ⟨i, hi, rfl⟩ := List.mem_map.1 hp
    have hjd : j ∉ (argsortAsc (cands.map score)).drop
        ((argsortAsc (cands.map score)).length - P) := by
      intro hjm
      exact hcn (List.mem_map.2 ⟨j, hjm, hje⟩)
    have hsplit : j ∈ (argsortAsc (cands.map score)).take
        ((argsortAsc (cands.map score)).length - P) ++
        (argsortAsc (cands.map score)).drop
        ((argsortAsc (cands.map score)).length - P) := by
      rw [List.take_append_drop]
      exact hjs
    have hjt : j ∈ (argsortAsc (cands.map score)).take
        ((argsortAsc (cands.map score)).length - P) := by
      rcases List.mem_append.1 hsplit with h | h
      · exact h
      · exact absurd h hjd
    have hpw := argsortAsc_pairwise (cands.map score)
    rw [← List.take_append_drop ((argsortAsc (cands.map score)).length - P)
      (argsortAsc (cands.map score))] at hpw
    have hcross := (List.pairwise_append.1 hpw).2.2 j hjt i hi
    have hilt : i < cands.length := by
      have := argsortAsc_mem_lt (List.mem_of_mem_drop hi)
      rwa [List.length_map] at this
    rw [getD_map_score hj, getD_map_score hilt, hje] at hcross
    exact hcross

theorem bprmf_negSet_rank (cands : List Pair) (score : Pair → ℚ) (binary : Bool)
    (P N : Nat) :
    ∀ p ∈ (bprmfLabel cands score binary P N).2.negSet,
      ∀ c ∈ cands, c ∉ (bprmfLabel cands score binary P N).2.negSet →
        score p ≤ score c := by
  simp only [bprmfLabel]
  intro p hp c hc hcn
  obtain ⟨j, hj, hje⟩ := exists_getD_eq hc (0, 0)
  have hjs : j ∈ argsortAsc (cands.map score) :=
    argsortAsc_mem_of_lt (by rwa [List.length_map])
  obtain ⟨i, hi, rfl⟩ := List.mem_map.1 hp
  have hjd : j ∉ (argsortAsc (cands.map score)).take N := by
    intro hjm
    exact hcn (List.mem_map.2 ⟨j, hjm, hje⟩)
  have hsplit : j ∈ (argsortAsc (cands.map score)).take N ++
      (argsortAsc (cands.map score)).drop N := by
    rw [List.take_append_drop]
    exact hjs
  have hjt : j ∈ (argsortAsc (cands.map score)).drop N := by
    rcases List.mem_append.1 hsplit with h | h
    · exact absurd h hjd
    · exact h
  have hpw := argsortAsc_pairwise (cands.map score)
  rw [← List.take_append_drop N (argsortAsc (cands.map score))] at hpw
  have hcross := (List.pairwise_append.1 hpw).2.2 i hi j hjt
  have hilt : i < cands.length := by
    have := argsortAsc_mem_lt (List.mem_of_mem_take hi)
    rwa [List.length_map] at this
  rw [getD_map_score hj, getD_map_score hilt, hje] at hcross
  exact hcross

/-! ### Claim theorems -/

/-- C1: in every co-training round, every triplet returned by recommender
1's labeler is written into `X2` and every triplet returned by recommender
2's labeler into `X1` (the matrices shown here are the round's
intermediate states, just before replenishment begins, exactly as built by
`roundStep`) - never into the originating recommender's own matrix, whose
entries change only at pairs labeled by the other recommender - and every
labeled pair has its pool marker flag set to zero before replenishment
begins. -/
theorem c1_cross_application (labeled1 labeled2 : List Triplet) (X1 X2 : Dok ℚ)
    (u : Dok Int) :
    (∀ t ∈ labeled1, pairOf t ∈ (applyLabeled labeled1 X2 u).1.keys) ∧
    (∀ t ∈ labeled2, pairOf t ∈
      (applyLabeled labeled2 X1 (applyLabeled labeled1 X2 u).2).1.keys) ∧
    (∀ t ∈ labeled1, ∃ t2 ∈ labeled1, pairOf t2 = pairOf t ∧
      (applyLabeled labeled1 X2 u).1.get (pairOf t) 0 = t2.2.2) ∧
    (∀ p : Pair, (∀ t ∈ labeled2, pairOf t ≠ p) →
      (applyLabeled labeled2 X1 (applyLabeled labeled1 X2 u).2).1.get p 0 = X1.get p 0) ∧
    (∀ p : Pair, (∀ t ∈ labeled1, pairOf t ≠ p) →
      (applyLabeled labeled1 X2 u).1.get p 0 = X2.get p 0) ∧
    (∀ t ∈ labeled1,
      (applyLabeled labeled2 X1 (applyLabeled labeled1 X2 u).2).2.get (pairOf t) 0 = 0) ∧
    (∀ t ∈ labeled2,
      (applyLabeled labeled2 X1 (applyLabeled labeled1 X2 u).2).2.get (pairOf t) 0 = 0) := by
  refine ⟨fun t ht => applyLabeled_mat_keys_of_mem _ _ _ ⟨t, ht, rfl⟩,
    fun t ht => applyLabeled_mat_keys_of_mem _ _ _ ⟨t, ht, rfl⟩,
    fun t ht => applyLabeled_mat_val _ _ _ ⟨t, ht, rfl⟩,
    fun p h => (applyLabeled_get_not_mem _ _ _ h).1,
    fun p h => (applyLabeled_get_not_mem _ _ _ h).1,
    fun t ht => ?_,
    fun t ht => applyLabeled_pool_zero _ _ _ ⟨t, ht, rfl⟩⟩
  by_cases hm : ∃ t2 ∈ labeled2, pairOf t2 = pairOf t
  · exact applyLabeled_pool_zero _ _ _ hm
  · rw [(applyLabeled_get_not_mem labeled2 X1 _ (fun s hs he => hm ⟨s, hs, he⟩)).2]
    exact applyLabeled_pool_zero _ _ _ ⟨t, ht, rfl⟩

/-- Witness for C1 at a concrete round: recommender 1 labels (0,1), which
lands in `X2`'s keys, leaves `X1` untouched, and is consumed from the
pool; recommender 2 labels (1,0) into `X1`. -/
theorem c1_cross_application_witness :
    pairOf (0, 1, (5 : ℚ)) ∈
      (applyLabeled [(0, 1, 5)] (⟨[]⟩ : Dok ℚ) ⟨[((0, 1), 1), ((1, 0), 1)]⟩).1.keys ∧
    (applyLabeled [(1, 0, 4)] (⟨[]⟩ : Dok ℚ)
      (applyLabeled [(0, 1, 5)] (⟨[]⟩ : Dok ℚ) ⟨[((0, 1), 1), ((1, 0), 1)]⟩).2).1.get
        (0, 1) 0 = (⟨[]⟩ : Dok ℚ).get (0, 1) 0 ∧
    (applyLabeled [(1, 0, 4)] (⟨[]⟩ : Dok ℚ)
      (applyLabeled [(0, 1, 5)] (⟨[]⟩ : Dok ℚ) ⟨[((0, 1), 1), ((1, 0), 1)]⟩).2).2.get
        (pairOf (0, 1, (5 : ℚ))) 0 = 0 := by
  have h := c1_cross_application [(0, 1, 5)] [(1, 0, 4)] ⟨[]⟩ ⟨[]⟩
    ⟨[((0, 1), 1), ((1, 0), 1)]⟩
  exact ⟨h.1 (0, 1, 5) (by decide), h.2.2.2.1 (0, 1) (by decide),
    h.2.2.2.2.2.1 (0, 1, 5) (by decide)⟩

/-- C4 counterexample: a failure inside recommender 2's fit step is not
caught (the try/except at `cotraining.py` lines 113-120 is commented out),
so the round does not proceed - the exception is fatal to the run,
refuting the claim that recommender 2 is treated exactly like
recommender 1. -/
theorem c4_counterexample :
    runRoundSteps ⟨Except.ok (), Except.error (), Except.ok (), Except.ok [], Except.ok []⟩
      none none = Except.error "rec 2 fit raised: not caught" := rfl

/-- C4 amended: failures of recommender 1's fit and of the evaluation are
caught and the round proceeds; a labeler failure is caught and that
recommender falls back to the previous round's labels (fatal NameError in
the first round, where no previous value exists); but a failure of
recommender 2's fit propagates and aborts the run. -/
theorem c4_failure_policy (f1 ev : Except Unit Unit) (l1 l2 : List Triplet)
    (p1 p2 : Option (List Triplet)) (e : Unit) :
    (runRoundSteps ⟨f1, Except.ok (), ev, Except.ok l1, Except.ok l2⟩ p1 p2 =
      Except.ok (l1, l2)) ∧
    (runRoundSteps ⟨f1, Except.error e, ev, Except.ok l1, Except.ok l2⟩ p1 p2 =
      Except.error "rec 2 fit raised: not caught") ∧
    (runRoundSteps ⟨f1, Except.ok (), ev, Except.error e, Except.ok l2⟩ (some l1) p2 =
      Except.ok (l1, l2)) ∧
    (runRoundSteps ⟨f1, Except.ok (), ev, Except.error e, Except.ok l2⟩ none p2 =
      Except.error "NameError: label list never bound") :=
  ⟨rfl, rfl, rfl, rfl⟩

/-- C5 counterexample: one labeled triplet, so the pool must be
replenished with exactly one fresh pair; but the replenishment loop only
checks the matrices, not the pool, and the accepted draw (0,0) was already
pooled - the pool gains no new pair at all (its key list is unchanged),
refuting distinctness from prior pool contents. -/
theorem c5_counterexample :
    roundStep ⟨[(0, 1, 5)], [], [(0, 0)]⟩ ⟨⟨[]⟩, ⟨[]⟩, ⟨[((0, 0), 1), ((0, 1), 1)]⟩⟩ =
      some ⟨⟨[]⟩, ⟨[((0, 1), 5)]⟩, ⟨[((0, 0), 1), ((0, 1), 0)]⟩⟩ ∧
    (⟨[((0, 0), 1), ((0, 1), 0)]⟩ : Dok Int).keys =
      (⟨[((0, 0), 1), ((0, 1), 1)]⟩ : Dok Int).keys := by
  decide

/-- C5 amended: the replenishment loop performs exactly `count` accepted
draws - the first `count` draws passing the test (in `roundStep`, the
test is being zero in both already-updated matrices) - and flags each of
them; but accepted draws are not checked against the pool or each other,
so they need not be distinct nor disjoint from prior pool contents, and
fewer than `count` genuinely fresh pairs may be added.  When the draw
stream holds fewer than `count` passing draws the loop has not
terminated. -/
theorem c5_replenish (test : Pair → Bool) (u : Dok Int) (count : Nat)
    (draws : List Pair) :
    (count ≤ (draws.filter test).length →
      fillPool test u count draws =
        some (((draws.filter test).take count).foldl (fun d q => d.update q 1) u) ∧
      ((draws.filter test).take count).length = count ∧
      ∀ p ∈ (draws.filter test).take count, test p = true) ∧
    ((draws.filter test).length < count → fillPool test u count draws = none) := by
  constructor
  · intro h
    refine ⟨fillPool_eq_some test draws count u h, ?_, ?_⟩
    · rw [List.length_take]
      omega
    · intro p hp
      exact (List.mem_filter.1 (List.mem_of_mem_take hp)).2
  · intro h
    exact fillPool_eq_none test draws count u h

/-- Witness for C5 at a concrete replenishment: one accepted draw. -/
theorem c5_replenish_witness :
    fillPool (fun p => decide (p.1 = 0)) (⟨[]⟩ : Dok Int) 1 [(0, 0)] =
      some ((([(0, 0)].filter (fun p : Pair => decide (p.1 = 0))).take 1).foldl
        (fun d q => d.update q 1) (⟨[]⟩ : Dok Int)) ∧
    (([(0, 0)].filter (fun p : Pair => decide (p.1 = 0))).take 1).length = 1 :=
  ⟨((c5_replenish (fun p => decide (p.1 = 0)) ⟨[]⟩ 1 [(0, 0)]).1 (by decide)).1,
    ((c5_replenish (fun p => decide (p.1 = 0)) ⟨[]⟩ 1 [(0, 0)]).1 (by decide)).2.1⟩

/-- C8 counterexample, on a 1-user x 2-item grid.  First conjunct: with
`X1 = {(0,1) = 5}` only one pair, (0,0), is free - fewer than the target
2 - yet the seeding loop terminates (the claim asserts it fails to
terminate), because a duplicate accepted draw is counted twice; the pool
ends with 1 distinct pair, not 2.  Second conjunct: with `X1` empty, at
least 2 pairs are free, yet the same duplicated draw stream again pools
only 1 distinct pair, refuting "exactly target_size distinct pairs". -/
theorem c8_counterexample :
    (seedPool ⟨[((0, 1), 5)]⟩ 2 [(0, 0), (0, 0)] = some ⟨[((0, 0), 1)]⟩ ∧
      (⟨[((0, 0), 1)]⟩ : Dok Int).keys.length = 1) ∧
    (seedPool ⟨[]⟩ 2 [(0, 0), (0, 0)] = some ⟨[((0, 0), 1)]⟩ ∧
      (⟨[((0, 0), 1)]⟩ : Dok Int).keys.length = 1) := by
  decide

/-- C8 amended: the seeding loop accepts a draw iff it is zero in `X1`;
it terminates exactly when the draw stream supplies `target` accepted
draws, duplicates counted separately (so fewer than `target` distinct
pairs may be pooled, and termination does not require `target` free
pairs); with no free pair every draw is rejected and it never terminates;
and every pooled pair is zero in `X1`. -/
theorem c8_seed (X1 : Dok ℚ) (target : Nat) (draws : List Pair) :
    (target ≤ (draws.filter (fun p => decide (X1.get p 0 = 0))).length →
      seedPool X1 target draws =
        some (((draws.filter (fun p => decide (X1.get p 0 = 0))).take target).foldl
          (fun d q => d.update q 1) (⟨[]⟩ : Dok Int))) ∧
    ((draws.filter (fun p => decide (X1.get p 0 = 0))).length < target →
      seedPool X1 target draws = none) ∧
    (∀ u2, seedPool X1 target draws = some u2 →
      ∀ p : Pair, u2.get p 0 ≠ 0 → X1.get p 0 = 0) := by
  refine ⟨fun h => fillPool_eq_some _ draws target ⟨[]⟩ h,
    fun h => fillPool_eq_none _ draws target ⟨[]⟩ h, fun u2 h2 p hp => ?_⟩
  rcases fillPool_flag h2 hp with hold | htest
  · exact absurd rfl hold
  · exact of_decide_eq_true htest

/-- Witness for C8 at a concrete seeding run. -/
theorem c8_seed_witness :
    seedPool (⟨[((0, 0), 5)]⟩ : Dok ℚ) 1 [(0, 0), (1, 1)] =
      some ((([(0, 0), (1, 1)].filter
          (fun p : Pair => decide ((⟨[((0, 0), 5)]⟩ : Dok ℚ).get p 0 = 0))).take 1).foldl
        (fun d q => d.update q 1) (⟨[]⟩ : Dok Int)) :=
  (c8_seed ⟨[((0, 0), 5)]⟩ 1 [(0, 0), (1, 1)]).1 (by decide)

/-- C9 counterexample: the pair (0,0) is labeled in the round (its flag
drops to 0) yet it is still produced by `candidates` - the candidate list
offered to the labelers - in the next round, because consumption stores
flag 0 without removing the key; the claim that the candidate set consists
exactly of the nonzero-flag pairs is refuted. -/
theorem c9_counterexample :
    roundStep ⟨[(0, 0, 5)], [], [(2, 2)]⟩ ⟨⟨[]⟩, ⟨[]⟩, ⟨[((0, 0), 1), ((1, 1), 1)]⟩⟩ =
      some ⟨⟨[]⟩, ⟨[((0, 0), 5)]⟩, ⟨[((0, 0), 0), ((1, 1), 1), ((2, 2), 1)]⟩⟩ ∧
    (0, 0) ∈ candidates ⟨⟨[]⟩, ⟨[((0, 0), 5)]⟩, ⟨[((0, 0), 0), ((1, 1), 1), ((2, 2), 1)]⟩⟩ ∧
    (⟨[((0, 0), 0), ((1, 1), 1), ((2, 2), 1)]⟩ : Dok Int).get (0, 0) 0 = 0 := by
  decide

/-- C9 amended: the candidate list is every key ever stored in the pool
dict; a round never removes a key (consumption only writes flag 0), so
every pair offered in one round - consumed or not - is offered again in
every later round. -/
theorem c9_candidates (inp : RoundInput) (s s2 : CtState)
    (h : roundStep inp s = some s2) :
    ∀ p ∈ candidates s, p ∈ candidates s2 :=
  fun _ hp => roundStep_candidates_mono h hp

/-- Witness for C9 at a concrete round. -/
theorem c9_candidates_witness :
    (1, 1) ∈ candidates ⟨⟨[]⟩, ⟨[((1, 1), 5)]⟩, ⟨[((1, 1), 0), ((3, 3), 1)]⟩⟩ :=
  c9_candidates ⟨[(1, 1, 5)], [], [(3, 3)]⟩ ⟨⟨[]⟩, ⟨[]⟩, ⟨[((1, 1), 1)]⟩⟩
    ⟨⟨[]⟩, ⟨[((1, 1), 5)]⟩, ⟨[((1, 1), 0), ((3, 3), 1)]⟩⟩ (by decide) (1, 1) (by decide)

/-- C2 counterexample: BPRMF's positive selection is the Python slice
`sorted[-p_most:]`, and `a[-0:]` is the whole array, so with `p_most = 0`
label emits every candidate as a positive: 2 positive triplets where the
claim allows at most 0. -/
theorem c2_counterexample :
    (bprmfLabel [(0, 0), (0, 1)] (fun _ => 4) false 0 5).2.posLabels = 2 ∧
    ¬ ((bprmfLabel [(0, 0), (0, 1)] (fun _ => 4) false 0 5).2.posLabels = 0) := by
  decide

/-- C2 amended: FunkSVD's label emits exactly `min P (#qualifying
positives)` positive and `min N (#qualifying negatives)` negative triplets
(so at most P / at most N, all qualifying candidates when fewer qualify,
never padding), and its output is sorted by (user, item) ascending; BPRMF
satisfies the same caps and ordering provided `p_most ≥ 1` (with
`p_most = 0` it emits every candidate as a positive). -/
theorem c2_label_caps :
    (∀ (cands : List Pair) (score : Pair → ℚ) (P N : Nat),
      (funkSVDLabel cands score P N).2.posLabels =
        min P ((cands.filter (fun c => decide (mkRat 7 2 ≤ score c))).length) ∧
      (funkSVDLabel cands score P N).2.negLabels =
        min N ((cands.filter (fun c => decide (score c ≤ mkRat 5 2))).length) ∧
      (funkSVDLabel cands score P N).1.length =
        (funkSVDLabel cands score P N).2.posLabels +
          (funkSVDLabel cands score P N).2.negLabels ∧
      (funkSVDLabel cands score P N).1.Sorted uiLe) ∧
    (∀ (cands : List Pair) (score : Pair → ℚ) (binary : Bool) (P N : Nat), 1 ≤ P →
      (bprmfLabel cands score binary P N).2.posLabels = min P cands.length ∧
      (bprmfLabel cands score binary P N).2.negLabels = min N cands.length ∧
      (bprmfLabel cands score binary P N).1.length =
        (bprmfLabel cands score binary P N).2.posLabels +
          (bprmfLabel cands score binary P N).2.negLabels ∧
      (bprmfLabel cands score binary P N).1.Sorted uiLe) :=
  ⟨fun cands score P N =>
      ⟨funk_posLabels cands score P N, funk_negLabels cands score P N,
        funk_total cands score P N, funk_sorted cands score P N⟩,
    fun cands score binary P N hP =>
      ⟨bprmf_posLabels cands score binary N hP, bprmf_negLabels cands score binary P N,
        bprmf_total cands score binary P N, bprmf_sorted cands score binary P N⟩⟩

/-- Witness for C2 at concrete inputs (BPRMF with p_most = 1 on two
candidates; FunkSVD on one qualifying positive). -/
theorem c2_label_caps_witness :
    ((bprmfLabel [(0, 0), (0, 1)] (fun _ => (2 : ℚ)) false 1 5).2.posLabels =
      min 1 ([(0, 0), (0, 1)] : List Pair).length) ∧
    (funkSVDLabel [(0, 0)] (fun _ => (4 : ℚ)) 1 1).2.posLabels =
      min 1 (([(0, 0)] : List Pair).filter
        (fun c => decide (mkRat 7 2 ≤ (fun _ : Pair => (4 : ℚ)) c))).length :=
  ⟨(c2_label_caps.2 [(0, 0), (0, 1)] (fun _ => 2) false 1 5 (by decide)).1,
    (c2_label_caps.1 [(0, 0)] (fun _ => 4) 1 1).1⟩

/-- C3 counterexample: the claim's classification covers both cited
labelers, but AsySVD's explicit-mode masks are 4 ≤ s ≤ 5 (positive) and
1 ≤ s ≤ 3 (negative); on scores [4.5, 3.0, 2.0] with p_most = n_most = 5
the pair scored 3.0 is emitted as a negative triplet instead of being
excluded from the emitted triplets. -/
theorem c3_counterexample :
    (0, 1, (3 : ℚ)) ∈ asySVDLabel [(0, 0), (0, 1), (0, 2)]
      (fun p => if p.2 = 1 then 3 else if p.2 = 2 then 2 else mkRat 9 2) 5 5 := by
  decide

/-- C3 amended: FunkSVD's explicit-mode label classifies positive iff
score ≥ 3.5, negative iff score ≤ 2.5, neutral iff strictly between, and
on scores [4.5, 3.0, 2.0] with p_most = n_most = 5 emits exactly one
positive (4.5) and one negative (2.0) while the pair scored 3.0 appears in
the neutral metadata set and not among the emitted triplets; AsySVD's
label instead classifies positive iff 4 ≤ score ≤ 5 and negative iff
1 ≤ score ≤ 3 and emits the 3.0 pair as a negative (returning no
metadata at all). -/
theorem c3_thresholds :
    (∀ (cands : List Pair) (score : Pair → ℚ) (P N : Nat) (c : Pair),
      (c ∈ (funkSVDLabel cands score P N).2.posSet ↔
        c ∈ cands ∧ mkRat 7 2 ≤ score c) ∧
      (c ∈ (funkSVDLabel cands score P N).2.negSet ↔
        c ∈ cands ∧ score c ≤ mkRat 5 2) ∧
      (c ∈ (funkSVDLabel cands score P N).2.neutralSet ↔
        c ∈ cands ∧ mkRat 5 2 < score c ∧ score c < mkRat 7 2)) ∧
    ((funkSVDLabel [(0, 0), (0, 1), (0, 2)]
        (fun p => if p.2 = 1 then 3 else if p.2 = 2 then 2 else mkRat 9 2) 5 5).1 =
        [(0, 0, mkRat 9 2), (0, 2, 2)] ∧
      (funkSVDLabel [(0, 0), (0, 1), (0, 2)]
        (fun p => if p.2 = 1 then 3 else if p.2 = 2 then 2 else mkRat 9 2) 5 5).2.posLabels
        = 1 ∧
      (funkSVDLabel [(0, 0), (0, 1), (0, 2)]
        (fun p => if p.2 = 1 then 3 else if p.2 = 2 then 2 else mkRat 9 2) 5 5).2.negLabels
        = 1 ∧
      (0, 1) ∈ (funkSVDLabel [(0, 0), (0, 1), (0, 2)]
        (fun p => if p.2 = 1 then 3 else if p.2 = 2 then 2 else mkRat 9 2) 5 5).2.neutralSet ∧
      (0, 1) ∉ ((funkSVDLabel [(0, 0), (0, 1), (0, 2)]
        (fun p => if p.2 = 1 then 3 else if p.2 = 2 then 2 else mkRat 9 2) 5 5).1.map
          pairOf)) ∧
    ((0, 1, (3 : ℚ)) ∈ asySVDLabel [(0, 0), (0, 1), (0, 2)]
        (fun p => if p.2 = 1 then 3 else if p.2 = 2 then 2 else mkRat 9 2) 5 5 ∧
      (asySVDLabel [(0, 0), (0, 1), (0, 2)]
        (fun p => if p.2 = 1 then 3 else if p.2 = 2 then 2 else mkRat 9 2) 5 5).length
        = 3) :=
  ⟨fun cands score P N c =>
      ⟨funk_posSet_iff cands score P N c, funk_negSet_iff cands score P N c,
        funk_neutralSet_iff cands score P N c⟩,
    by decide, by decide⟩

/-- C6: pool soundness.  Seed the pool as `CoTraining.fit` does (checking
`X1` only, with `X2` starting as a copy of `X1`) and run any number of
co-training rounds; then at every round boundary - the states reachable
by `runRounds` over any prefix of the per-round inputs - every pair whose
pool flag is nonzero is zero (absent) in both `X1` and `X2`. -/
theorem c6_pool_invariant (X1 : Dok ℚ) (target : Nat) (draws : List Pair)
    (inputs : List RoundInput) (s0 s : CtState)
    (h0 : initState X1 target draws = some s0)
    (h : runRounds s0 inputs = some s) : PoolInv s :=
  runRounds_poolInv (initState_poolInv h0) h

/-- Witness for C6: a seeded 1-rating matrix and one full round. -/
theorem c6_pool_invariant_witness :
    PoolInv ⟨⟨[((0, 0), 5)]⟩, ⟨[((0, 0), 5), ((1, 1), 4)]⟩, ⟨[((1, 1), 0), ((0, 1), 1)]⟩⟩ :=
  c6_pool_invariant ⟨[((0, 0), 5)]⟩ 1 [(0, 0), (1, 1)] [⟨[(1, 1, 4)], [], [(0, 1)]⟩]
    ⟨⟨[((0, 0), 5)]⟩, ⟨[((0, 0), 5)]⟩, ⟨[((1, 1), 1)]⟩⟩ _ (by decide) (by decide)

/-- C7: the explicit-mode labelers only emit nonzero ratings (FunkSVD
clamps into [1,5]; BPRMF emits the constants 5.0/1.0), and a run whose
per-round label lists all carry nonzero ratings only ever dict-updates the
matrices with nonzero values: no stored rating is ever deleted or zeroed,
and the nonzero-entry counts of `X1` and `X2` are monotonically
non-decreasing across rounds (any round boundary is a `runRounds` result
over a prefix of the inputs). -/
theorem c7_insertions_monotone :
    (∀ (cands : List Pair) (score : Pair → ℚ) (P N : Nat),
      ∀ t ∈ (funkSVDLabel cands score P N).1, t.2.2 ≠ 0) ∧
    (∀ (cands : List Pair) (score : Pair → ℚ) (P N : Nat),
      ∀ t ∈ (bprmfLabel cands score false P N).1, t.2.2 ≠ 0) ∧
    (∀ (inputs : List RoundInput) (s s2 : CtState),
      (∀ inp ∈ inputs,
        (∀ t ∈ inp.labeled1, t.2.2 ≠ 0) ∧ (∀ t ∈ inp.labeled2, t.2.2 ≠ 0)) →
      runRounds s inputs = some s2 →
      nnz s.X1 ≤ nnz s2.X1 ∧ nnz s.X2 ≤ nnz s2.X2 ∧
        (∀ p : Pair, s.X1.get p 0 ≠ 0 → s2.X1.get p 0 ≠ 0) ∧
        (∀ p : Pair, s.X2.get p 0 ≠ 0 → s2.X2.get p 0 ≠ 0)) := by
  refine ⟨?_, ?_, fun inputs s s2 hv h => runRounds_mono hv h⟩
  · intro cands score P N t ht
    rcases funk_mem_trips ht with ⟨h1, _⟩ | ⟨h1, _⟩
    · exact ne_of_gt (lt_of_lt_of_le (by decide) h1)
    · exact ne_of_gt (lt_of_lt_of_le (by decide) h1)
  · intro cands score P N t ht
    rcases bprmf_values ht with h1 | h1 <;> rw [h1] <;> decide

/-- Witness for C7: one round inserting one rating into `X2`. -/
theorem c7_insertions_monotone_witness :
    nnz (⟨[]⟩ : Dok ℚ) ≤ nnz (⟨[]⟩ : Dok ℚ) ∧
    nnz (⟨[]⟩ : Dok ℚ) ≤ nnz (⟨[((0, 0), 5)]⟩ : Dok ℚ) ∧
    (∀ p : Pair, (⟨[]⟩ : Dok ℚ).get p 0 ≠ 0 → (⟨[]⟩ : Dok ℚ).get p 0 ≠ 0) ∧
    (∀ p : Pair, (⟨[]⟩ : Dok ℚ).get p 0 ≠ 0 → (⟨[((0, 0), 5)]⟩ : Dok ℚ).get p 0 ≠ 0) :=
  c7_insertions_monotone.2.2 [⟨[(0, 0, 5)], [], [(1, 1)]⟩]
    ⟨⟨[]⟩, ⟨[]⟩, ⟨[((0, 0), 1)]⟩⟩ ⟨⟨[]⟩, ⟨[((0, 0), 5)]⟩, ⟨[((0, 0), 0), ((1, 1), 1)]⟩⟩
    (by decide) (by decide)

/-- C10 counterexample: with `p_most = 0` the Python slice `sorted[-0:]`
is the whole array, so the single candidate is emitted as a positive with
rating 5.0 - not the claimed "p_most highest-scored candidates". -/
theorem c10_counterexample :
    (bprmfLabel [(0, 0)] (fun _ => 2) false 0 0).1 = [(0, 0, 5)] := by decide

/-- C10 amended: for `p_most ≥ 1` BPRMF's label selects the p_most
highest-scored and n_most lowest-scored candidates purely by global rank
(every unselected candidate scores no higher than any selected positive
and no lower than any selected negative; no threshold exists); every
emitted rating is a constant (5.0/1.0 explicit, 1.0/0.0 binary), never
the predicted score; and when p_most + n_most exceeds the number of
candidates the same pair is emitted both as a positive and as a negative
triplet, as with one candidate and p_most = n_most = 1. -/
theorem c10_bprmf_rank :
    (∀ (cands : List Pair) (score : Pair → ℚ) (binary : Bool) (P N : Nat), 1 ≤ P →
      (bprmfLabel cands score binary P N).2.posLabels = min P cands.length ∧
      (bprmfLabel cands score binary P N).2.negLabels = min N cands.length) ∧
    (∀ (cands : List Pair) (score : Pair → ℚ) (binary : Bool) (P N : Nat),
      ∀ t ∈ (bprmfLabel cands score binary P N).1,
        t.2.2 = (if binary then (1 : ℚ) else 5) ∨
          t.2.2 = (if binary then (0 : ℚ) else 1)) ∧
    (∀ (cands : List Pair) (score : Pair → ℚ) (binary : Bool) (P N : Nat),
      (∀ p ∈ (bprmfLabel cands score binary P N).2.posSet, ∀ c ∈ cands,
        c ∉ (bprmfLabel cands score binary P N).2.posSet → score c ≤ score p) ∧
      (∀ p ∈ (bprmfLabel cands score binary P N).2.negSet, ∀ c ∈ cands,
        c ∉ (bprmfLabel cands score binary P N).2.negSet → score p ≤ score c)) ∧
    ((0, 0, (5 : ℚ)) ∈ (bprmfLabel [(0, 0)] (fun _ => 3) false 1 1).1 ∧
      (0, 0, (1 : ℚ)) ∈ (bprmfLabel [(0, 0)] (fun _ => 3) false 1 1).1) :=
  ⟨fun cands score binary P N hP =>
      ⟨bprmf_posLabels cands score binary N hP, bprmf_negLabels cands score binary P N⟩,
    fun cands score binary P N t ht => bprmf_values ht,
    fun cands score binary P N =>
      ⟨bprmf_posSet_rank cands score binary P N, bprmf_negSet_rank cands score binary P N⟩,
    by decide, by decide⟩

/-- Witness for C10 at concrete inputs. -/
theorem c10_bprmf_rank_witness :
    (bprmfLabel [(0, 0), (0, 1)] (fun _ => (2 : ℚ)) false 1 0).2.posLabels =
      min 1 ([(0, 0), (0, 1)] : List Pair).length ∧
    (bprmfLabel [(0, 0), (0, 1)] (fun _ => (2 : ℚ)) false 1 0).2.negLabels =
      min 0 ([(0, 0), (0, 1)] : List Pair).length :=
  c10_bprmf_rank.1 [(0, 0), (0, 1)] (fun _ => 2) false 1 0 (by decide)

end RecSysCoTraining
